import Mathlib

/-!
Verification of the zoxidian frecency/aging scoring engine and visit tracker.

The record set `Record<string, FileEntry>` of the source is embedded as an
association list `List (String × FileEntry)` (JS objects with string keys are
finite maps with at most one binding per key; insertion order is kept by the
embedding but none of the statements below depend on it).  JS numbers carrying
scores are embedded as `ℚ` (every quantity the source produces here is a
ratio of integers) and timestamps as `ℤ` (milliseconds since the epoch).
-/

/-- Embeds `FileEntry` from src/src/types.ts: the base score and the
Unix timestamp (ms) of the most recent visit. -/
structure FileEntry where
  score : ℚ
  lastAccess : ℤ
deriving Repr, DecidableEq

/-- Embeds `ZoxidianSettings` from src/unnamed/part_005 lines 6-14. -/
structure ZoxidianSettings where
  maxItems : ℕ
  excludePaths : String
  openInNewTab : Bool
  showFrecencyBadge : Bool
  showScoreBadge : Bool
  maxAge : ℚ
  recordOnEveryVisit : Bool
deriving Repr, DecidableEq

/-- Embeds `DEFAULT_SETTINGS` from src/unnamed/part_005 lines 16-24. -/
def DEFAULT_SETTINGS : ZoxidianSettings :=
  { maxItems := 50
    excludePaths := ""
    openInNewTab := false
    showFrecencyBadge := true
    showScoreBadge := true
    maxAge := 9000
    recordOnEveryVisit := false }

/-- JS property read `files[k]`: the value bound to key `k`, if any. -/
def lookupEntry (files : List (String × FileEntry)) (k : String) : Option FileEntry :=
  match files with
  | [] => none
  | (k', e) :: rest => if k' = k then some e else lookupEntry rest k

/-- JS property write `files[k] = e`: replaces the binding of `k` in place if
present, otherwise appends a new binding (JS insertion order). -/
def setEntry (files : List (String × FileEntry)) (k : String) (e : FileEntry) :
    List (String × FileEntry) :=
  match files with
  | [] => [(k, e)]
  | (k', e') :: rest =>
      if k' = k then (k, e) :: rest else (k', e') :: setEntry rest k e

/-- JS `delete files[k]`: removes the binding of `k`. -/
def deleteEntry (files : List (String × FileEntry)) (k : String) :
    List (String × FileEntry) :=
  files.filter (fun p => decide ¬ p.1 = k)

/-- Embeds `Object.values(files).reduce((sum, e) => sum + e.score, 0)` — the
total of all base scores, as computed inside `applyAging`
(src/unnamed/part_001 lines 14 and 90) and by `getTotalScore`
(src/unnamed/part_002 lines 149-151). -/
def totalScore (files : List (String × FileEntry)) : ℚ :=
  (files.map (fun p => p.2.score)).sum

/-- Modelled from the spec: the repository's current `applyAging` in
src/frecency.ts, which is absent from src/; src/ holds two earlier
generations of this function, src/unnamed/part_001 lines 12-25 (guard
`if (maxAge <= 0) return`, scale `(maxAge * 0.9) / total`) and lines 89-101
(no guard, scale `maxAge / total`).  The spec (§4.1) fixes the current
behavior as the direct `maxAge / total` scale — its design note calls the
`0.9` factor "an earlier variant" — together with the `maxAge ≤ 0` guard.
The repository's own tests corroborate the direct scale
(tests/frecency.test.ts: aging two score-100 entries under `maxAge = 100`
must leave each close to 50), as does the settings-page prune preview
(src/unnamed/part_005 line 247: `scale = num / total`).  The early return
when `total <= maxAge` and the loop body (`entry.score *= scale;
if (entry.score < 1) delete files[path]`) are verbatim in both source
variants. -/
def applyAging (files : List (String × FileEntry)) (maxAge : ℚ) :
    List (String × FileEntry) :=
  if maxAge ≤ 0 then files
  else if totalScore files ≤ maxAge then files
  else
    (files.map (fun p =>
        (p.1, FileEntry.mk (p.2.score * (maxAge / totalScore files)) p.2.lastAccess))).filter
      (fun p => decide ¬ p.2.score < 1)

/-- Embeds `getFrecency` from src/unnamed/part_001 lines 38-48 (the identical
text also appears at lines 114-124): bucket the elapsed time since the last
access and weight the base score accordingly.  The source's defaulted
argument `now = Date.now()` is the explicit `now` parameter here. -/
def getFrecency (entry : FileEntry) (now : ℤ) : ℚ :=
  let elapsed : ℤ := now - entry.lastAccess
  let HOUR : ℤ := 60 * 60 * 1000
  let DAY : ℤ := 24 * HOUR
  let WEEK : ℤ := 7 * DAY
  if elapsed < HOUR then entry.score * 4
  else if elapsed < DAY then entry.score * 2
  else if elapsed < WEEK then entry.score / 2
  else entry.score / 4

/-- The plugin state owned by `ZoxidianPlugin` (src/unnamed/part_002 lines
18-25): the tracked record set, the open-set `openInLeaf` (a `Set<string>`,
embedded as a list read only through membership), and the settings. -/
structure PluginState where
  files : List (String × FileEntry)
  openInLeaf : List String
  settings : ZoxidianSettings
deriving Repr, DecidableEq

/-- The record mutation of a counted visit, src/unnamed/part_002 lines
137-143: bump the score and stamp `lastAccess` when a record exists,
otherwise create a fresh `{ score: 1, lastAccess: now }` record. -/
def visitUpdate (files : List (String × FileEntry)) (key : String) (now : ℤ) :
    List (String × FileEntry) :=
  match lookupEntry files key with
  | some e => setEntry files key (FileEntry.mk (e.score + 1) now)
  | none => setEntry files key (FileEntry.mk 1 now)

/-- Embeds `recordVisit` from src/unnamed/part_002 lines 129-147:
remember whether the key already had an open leaf, mark it open
unconditionally, suppress the visit when `recordOnEveryVisit` is off and the
key was already open, and otherwise apply the counted-visit mutation followed
by `applyAging(this.files, this.settings.maxAge)`.  The source's
`Date.now()` is the explicit `now` parameter (the spec injects `now`
everywhere).  The debounced persist and the view redraw have no effect on
this state and are omitted. -/
def recordVisit (st : PluginState) (key : String) (now : ℤ) : PluginState :=
  let opened := if key ∈ st.openInLeaf then st.openInLeaf else key :: st.openInLeaf
  if st.settings.recordOnEveryVisit = false ∧ key ∈ st.openInLeaf then
    { st with openInLeaf := opened }
  else
    { st with
        openInLeaf := opened
        files := applyAging (visitUpdate st.files key now) st.settings.maxAge }

/-- Embeds `handleRename` from src/unnamed/part_002 lines 153-160: no-op
when `oldPath` is untracked; otherwise `this.files[newPath] = { ...entry }`
followed by `delete this.files[oldPath]`.  Nothing else is touched: in
particular this function never reads or writes `openInLeaf`, and an existing
record at `newPath` is overwritten by the copied entry. -/
def handleRename (st : PluginState) (oldPath newPath : String) : PluginState :=
  match lookupEntry st.files oldPath with
  | none => st
  | some entry =>
      { st with files := deleteEntry (setEntry st.files newPath entry) oldPath }

/-- Embeds `handleDelete` from src/unnamed/part_002 lines 162-167: no-op for
an untracked path, otherwise delete the record. -/
def handleDelete (st : PluginState) (path : String) : PluginState :=
  match lookupEntry st.files path with
  | none => st
  | some _ => { st with files := deleteEntry st.files path }

/-- The shapes the persisted `files` field can arrive in, as distinguished by
the guard in `initData` (src/unnamed/part_002 lines 112-114):
`typeof raw?.files === "object" && raw.files !== null && !Array.isArray(raw.files)`.
`undef` covers an absent field (and any non-object value, whose `typeof` is
not `"object"`), `nullv` a JSON `null`, `arrayv` a JSON array, and `obj` an
actual object of records. -/
inductive RawFiles where
  | undef
  | nullv
  | arrayv
  | obj (entries : List (String × FileEntry))
deriving Repr, DecidableEq

/-- A persisted settings object with every field optional: `Object.assign`
overwrites only the properties the loaded blob actually carries. -/
structure SettingsPatch where
  maxItems : Option ℕ
  excludePaths : Option String
  openInNewTab : Option Bool
  showFrecencyBadge : Option Bool
  showScoreBadge : Option Bool
  maxAge : Option ℚ
  recordOnEveryVisit : Option Bool
deriving Repr, DecidableEq

/-- A loaded persisted blob `Partial<PersistedData>` (src/unnamed/part_002
lines 9-12): both fields may be missing or malformed. -/
structure PersistedRaw where
  files : RawFiles
  settings : Option SettingsPatch
deriving Repr, DecidableEq

/-- `Object.assign({}, DEFAULT_SETTINGS, raw?.settings ?? {})`
(src/unnamed/part_002 line 111): start from the defaults and overwrite each
field the patch provides. -/
def assignSettings (patch : Option SettingsPatch) : ZoxidianSettings :=
  match patch with
  | none => DEFAULT_SETTINGS
  | some p =>
      { maxItems := p.maxItems.getD DEFAULT_SETTINGS.maxItems
        excludePaths := p.excludePaths.getD DEFAULT_SETTINGS.excludePaths
        openInNewTab := p.openInNewTab.getD DEFAULT_SETTINGS.openInNewTab
        showFrecencyBadge := p.showFrecencyBadge.getD DEFAULT_SETTINGS.showFrecencyBadge
        showScoreBadge := p.showScoreBadge.getD DEFAULT_SETTINGS.showScoreBadge
        maxAge := p.maxAge.getD DEFAULT_SETTINGS.maxAge
        recordOnEveryVisit := p.recordOnEveryVisit.getD DEFAULT_SETTINGS.recordOnEveryVisit }

/-- Embeds `initData` from src/unnamed/part_002 lines 109-115: `loadData`
may return `null` (the `none` case); the settings are assembled with
`Object.assign` over the defaults, and the `files` field is kept only when
it passes the object/non-null/non-array shape guard, anything else becoming
the empty record set.  Returns the `(settings, files)` pair the method
stores on the plugin. -/
def initData (raw : Option PersistedRaw) :
    ZoxidianSettings × List (String × FileEntry) :=
  match raw with
  | none => (assignSettings none, [])
  | some r =>
      (assignSettings r.settings,
        match r.files with
        | RawFiles.obj entries => entries
        | _ => [])

/-! ### Helper lemmas -/

/-- Reading back a key just written returns the written entry. -/
theorem lookupEntry_setEntry_self (files : List (String × FileEntry)) (k : String)
    (e : FileEntry) : lookupEntry (setEntry files k e) k = some e := by
  induction files with
  | nil => simp [setEntry, lookupEntry]
  | cons p rest ih =>
      obtain ⟨k', e'⟩ := p
      by_cases hk : k' = k
      · simp [setEntry, lookupEntry, hk]
      · simp [setEntry, lookupEntry, hk, ih]

/-- A key that is absent from the key list looks up to `none`. -/
theorem lookupEntry_eq_none_of_not_mem (files : List (String × FileEntry)) (k : String)
    (h : k ∉ files.map Prod.fst) : lookupEntry files k = none := by
  induction files with
  | nil => rfl
  | cons p rest ih =>
      obtain ⟨k', e'⟩ := p
      simp only [List.map_cons, List.mem_cons] at h
      push_neg at h
      have hk : ¬ k' = k := fun h' => h.1 h'.symm
      simp [lookupEntry, hk, ih h.2]

/-- Overwriting an existing binding shifts the total score by the
difference of the two entries' scores. -/
theorem totalScore_setEntry_of_lookup (files : List (String × FileEntry)) (k : String)
    (e e' : FileEntry) (h : lookupEntry files k = some e) :
    totalScore (setEntry files k e') = totalScore files - e.score + e'.score := by
  induction files with
  | nil => simp [lookupEntry] at h
  | cons p rest ih =>
      obtain ⟨k', e₁⟩ := p
      by_cases hk : k' = k
      · simp only [lookupEntry, hk, if_pos] at h
        obtain rfl : e₁ = e := Option.some.inj h
        simp [setEntry, hk, totalScore]
        ring
      · simp only [lookupEntry, hk, if_neg, ite_false] at h
        simp only [setEntry, hk, ite_false, if_neg]
        simp only [totalScore, List.map_cons, List.sum_cons] at ih ⊢
        rw [ih h]
        ring

/-- Aging is the identity when the total already sits at or under the
ceiling. -/
theorem applyAging_noop_of_le (files : List (String × FileEntry)) (maxAge : ℚ)
    (h : totalScore files ≤ maxAge) : applyAging files maxAge = files := by
  simp [applyAging, h]

/-- Aging in the over-the-ceiling case is the scale-then-prune pass. -/
theorem applyAging_of_lt (files : List (String × FileEntry)) (maxAge : ℚ)
    (h0 : 0 < maxAge) (ht : maxAge < totalScore files) :
    applyAging files maxAge
      = (files.map (fun p =>
          (p.1, FileEntry.mk (p.2.score * (maxAge / totalScore files)) p.2.lastAccess))).filter
          (fun p => decide ¬ p.2.score < 1) := by
  simp only [applyAging, if_neg (not_le.mpr h0), if_neg (not_le.mpr ht)]

/-- Looking up a key through a key-preserving map followed by a filter on the
mapped value, over a record set with no duplicate keys. -/
theorem lookupEntry_map_filter (f : FileEntry → FileEntry) (q : FileEntry → Bool)
    (files : List (String × FileEntry)) (k : String)
    (hnd : (files.map Prod.fst).Nodup) :
    lookupEntry ((files.map (fun p => (p.1, f p.2))).filter (fun p => q p.2)) k
      = match lookupEntry files k with
        | some e => if q (f e) then some (f e) else none
        | none => none := by
  induction files with
  | nil => rfl
  | cons p rest ih =>
      obtain ⟨k', e'⟩ := p
      simp only [List.map_cons, List.nodup_cons] at hnd
      obtain ⟨hk', hnd'⟩ := hnd
      simp only [List.map_cons, List.filter_cons]
      by_cases hq : q (f e')
      · simp only [hq, if_pos]
        by_cases hk : k' = k
        · simp [lookupEntry, hk, hq]
        · simp only [lookupEntry, hk, ite_false, if_neg]
          exact ih hnd'
      · simp only [hq, Bool.false_eq_true, if_false]
        by_cases hk : k' = k
        · subst hk
          have hres : lookupEntry rest k' = none := by
            apply lookupEntry_eq_none_of_not_mem
            exact hk'
          have := ih hnd'
          rw [hres] at this
          simp [lookupEntry, hq, this]
        · simp only [lookupEntry, hk, ite_false, if_neg]
          exact ih hnd'

/-- Dropping entries from a record set of nonnegative scores can only lower
the total. -/
theorem totalScore_filter_le (files : List (String × FileEntry))
    (q : String × FileEntry → Bool) (hpos : ∀ p ∈ files, 0 ≤ p.2.score) :
    totalScore (files.filter q) ≤ totalScore files := by
  induction files with
  | nil => simp [totalScore]
  | cons p rest ih =>
      have hp : 0 ≤ p.2.score := hpos p (List.mem_cons_self p rest)
      have hrest : ∀ r ∈ rest, 0 ≤ r.2.score :=
        fun r hr => hpos r (List.mem_cons_of_mem p hr)
      simp only [List.filter_cons]
      by_cases hq : q p
      · simp only [hq, if_pos, totalScore, List.map_cons, List.sum_cons]
        have := ih hrest
        simp only [totalScore] at this
        linarith
      · simp only [hq, Bool.false_eq_true, if_false]
        have := ih hrest
        simp only [totalScore, List.map_cons, List.sum_cons] at this ⊢
        linarith

/-- Scaling every score by `c` scales the total by `c`. -/
theorem totalScore_map_scale (files : List (String × FileEntry)) (c : ℚ) :
    totalScore (files.map (fun p => (p.1, FileEntry.mk (p.2.score * c) p.2.lastAccess)))
      = totalScore files * c := by
  induction files with
  | nil => simp [totalScore]
  | cons p rest ih =>
      simp only [List.map_cons, totalScore, List.sum_cons] at ih ⊢
      rw [ih]
      ring

/-- After an aging pass with a positive ceiling over nonnegative scores, the
total score sits at or under the ceiling. -/
theorem totalScore_applyAging_le (files : List (String × FileEntry)) (maxAge : ℚ)
    (h0 : 0 < maxAge) (hpos : ∀ p ∈ files, 0 ≤ p.2.score) :
    totalScore (applyAging files maxAge) ≤ maxAge := by
  by_cases ht : totalScore files ≤ maxAge
  · rw [applyAging_noop_of_le files maxAge ht]
    exact ht
  · have ht' : maxAge < totalScore files := not_le.mp ht
    rw [applyAging_of_lt files maxAge h0 ht']
    have htpos : (0 : ℚ) < totalScore files := lt_trans h0 ht'
    have hscale : (0 : ℚ) ≤ maxAge / totalScore files :=
      div_nonneg (le_of_lt h0) (le_of_lt htpos)
    have hposm : ∀ p ∈ files.map (fun p =>
        (p.1, FileEntry.mk (p.2.score * (maxAge / totalScore files)) p.2.lastAccess)),
        0 ≤ p.2.score := by
      intro p hp
      obtain ⟨r, hr, rfl⟩ := List.mem_map.mp hp
      exact mul_nonneg (hpos r hr) hscale
    calc totalScore ((files.map (fun p =>
            (p.1, FileEntry.mk (p.2.score * (maxAge / totalScore files)) p.2.lastAccess))).filter
            (fun p => decide ¬ p.2.score < 1))
        ≤ totalScore (files.map (fun p =>
            (p.1, FileEntry.mk (p.2.score * (maxAge / totalScore files)) p.2.lastAccess))) :=
          totalScore_filter_le _ _ hposm
      _ = totalScore files * (maxAge / totalScore files) := totalScore_map_scale _ _
      _ = maxAge := by
          rw [mul_comm, div_mul_cancel₀ _ (ne_of_gt htpos)]

/-- `getFrecency` with the millisecond constants evaluated. -/
theorem getFrecency_eq (entry : FileEntry) (now : ℤ) :
    getFrecency entry now =
      if now - entry.lastAccess < 3600000 then entry.score * 4
      else if now - entry.lastAccess < 86400000 then entry.score * 2
      else if now - entry.lastAccess < 604800000 then entry.score / 2
      else entry.score / 4 := rfl

/-! ### Claim theorems -/

/-- Claim C2: `getFrecency` multiplies the score by 4 when the elapsed time
`now - lastAccess` is strictly under one hour (3600000 ms) — including every
negative elapsed time from clock skew — by 2 when it is at least one hour but
under one day (86400000 ms), divides it by 2 when at least one day but under
one week (604800000 ms), and divides it by 4 from one week on; each exact
boundary falls into the later bucket because every comparison is strict. -/
theorem getFrecency_buckets (entry : FileEntry) (now : ℤ) :
    (now - entry.lastAccess < 3600000 → getFrecency entry now = entry.score * 4)
    ∧ (3600000 ≤ now - entry.lastAccess → now - entry.lastAccess < 86400000 →
        getFrecency entry now = entry.score * 2)
    ∧ (86400000 ≤ now - entry.lastAccess → now - entry.lastAccess < 604800000 →
        getFrecency entry now = entry.score / 2)
    ∧ (604800000 ≤ now - entry.lastAccess → getFrecency entry now = entry.score / 4) := by
  refine ⟨fun h1 => ?_, fun h1 h2 => ?_, fun h1 h2 => ?_, fun h1 => ?_⟩ <;>
    rw [getFrecency_eq] <;> split_ifs <;> first | rfl | (exfalso; omega)

/-- Witness for C2 at the spec's boundary examples: a score-10 record read
59 minutes, 61 minutes, 25 hours and 8 days after its last access. -/
theorem getFrecency_buckets_witness :
    getFrecency ⟨10, 0⟩ 3540000 = 40 ∧ getFrecency ⟨10, 0⟩ 3660000 = 20
    ∧ getFrecency ⟨10, 0⟩ 90000000 = 5 ∧ getFrecency ⟨10, 0⟩ 691200000 = 5 / 2 := by
  refine ⟨?_, ?_, ?_, ?_⟩
  · rw [(getFrecency_buckets ⟨10, 0⟩ 3540000).1 (by decide)]; norm_num
  · rw [(getFrecency_buckets ⟨10, 0⟩ 3660000).2.1 (by decide) (by decide)]; norm_num
  · rw [(getFrecency_buckets ⟨10, 0⟩ 90000000).2.2.1 (by decide) (by decide)]; norm_num
  · rw [(getFrecency_buckets ⟨10, 0⟩ 691200000).2.2.2 (by decide)]; norm_num

/-- Claim C1: when the total score strictly exceeds a positive `maxAge`,
`applyAging` multiplies every record's score by `scale = maxAge / total`,
deletes exactly the records whose post-scale score is strictly below 1, and
keeps every other record with its scaled score (and unchanged `lastAccess`);
no record appears out of nowhere. -/
theorem applyAging_scales_and_prunes (files : List (String × FileEntry)) (maxAge : ℚ)
    (hnd : (files.map Prod.fst).Nodup) (h0 : 0 < maxAge)
    (ht : maxAge < totalScore files) :
    (∀ k e, lookupEntry files k = some e →
      (1 ≤ e.score * (maxAge / totalScore files) →
        lookupEntry (applyAging files maxAge) k
          = some ⟨e.score * (maxAge / totalScore files), e.lastAccess⟩)
      ∧ (e.score * (maxAge / totalScore files) < 1 →
        lookupEntry (applyAging files maxAge) k = none))
    ∧ (∀ k, lookupEntry files k = none → lookupEntry (applyAging files maxAge) k = none) := by
  rw [applyAging_of_lt files maxAge h0 ht]
  have hmf := fun k => lookupEntry_map_filter
    (fun e => FileEntry.mk (e.score * (maxAge / totalScore files)) e.lastAccess)
    (fun e => decide ¬ e.score < 1) files k hnd
  constructor
  · intro k e hk
    have h := hmf k
    rw [hk] at h
    constructor
    · intro h1
      rw [h]
      simp [not_lt.mpr h1]
    · intro h1
      rw [h]
      simp [h1]
  · intro k hk
    have h := hmf k
    rw [hk] at h
    exact h

/-- Witness for C1: two records of scores 1000 and 1 under `maxAge = 1000`
(total 1001): the first survives with its scaled score, the second scales to
1000/1001 < 1 and is pruned. -/
theorem applyAging_scales_and_prunes_witness :
    lookupEntry (applyAging [("a", ⟨1000, 0⟩), ("b", ⟨1, 0⟩)] 1000) "a"
      = some ⟨1000000 / 1001, 0⟩
    ∧ lookupEntry (applyAging [("a", ⟨1000, 0⟩), ("b", ⟨1, 0⟩)] 1000) "b" = none := by
  have hT : totalScore [("a", (⟨1000, 0⟩ : FileEntry)), ("b", ⟨1, 0⟩)] = 1001 := by
    norm_num [totalScore]
  have h := applyAging_scales_and_prunes [("a", ⟨1000, 0⟩), ("b", ⟨1, 0⟩)] 1000
    (by decide) (by norm_num) (by rw [hT]; norm_num)
  constructor
  · rw [(h.1 "a" ⟨1000, 0⟩ (by simp [lookupEntry])).1 (by rw [hT]; norm_num)]
    rw [hT]
    norm_num
  · exact (h.1 "b" ⟨1, 0⟩ (by simp [lookupEntry])).2 (by rw [hT]; norm_num)

/-- Claim C3: with a positive ceiling and nonnegative scores (the record
invariant: scores are visit counts scaled by nonnegative factors), the total
score after `applyAging` is at most `maxAge`; pruning only removes mass. -/
theorem applyAging_ceiling (files : List (String × FileEntry)) (maxAge : ℚ)
    (h0 : 0 < maxAge) (hpos : ∀ p ∈ files, 0 ≤ p.2.score) :
    totalScore (applyAging files maxAge) ≤ maxAge :=
  totalScore_applyAging_le files maxAge h0 hpos

/-- Witness for C3: a single score-3 record aged under `maxAge = 2`. -/
theorem applyAging_ceiling_witness :
    totalScore (applyAging [("a", ⟨3, 0⟩)] 2) ≤ 2 :=
  applyAging_ceiling [("a", ⟨3, 0⟩)] 2 (by decide) (by decide)

/-- Claim C7: a ceiling `maxAge ≤ 0` disables aging — `applyAging` returns
the record set unchanged: no score changes and nothing is deleted. -/
theorem applyAging_disabled (files : List (String × FileEntry)) (maxAge : ℚ)
    (h : maxAge ≤ 0) : applyAging files maxAge = files := by
  simp [applyAging, h]

/-- Witness for C7: a score-5 record survives an aging call with ceiling 0
untouched. -/
theorem applyAging_disabled_witness :
    applyAging [("a", ⟨5, 0⟩)] 0 = [("a", ⟨5, 0⟩)] :=
  applyAging_disabled [("a", ⟨5, 0⟩)] 0 (by decide)

/-- Claim C10: `applyAging` is idempotent on record sets with nonnegative
scores (the record invariant): a second pass with the same `maxAge` changes
nothing, because the first pass already leaves the total at or under the
ceiling (or the ceiling is nonpositive and both passes are no-ops). -/
theorem applyAging_idempotent (files : List (String × FileEntry)) (maxAge : ℚ)
    (hpos : ∀ p ∈ files, 0 ≤ p.2.score) :
    applyAging (applyAging files maxAge) maxAge = applyAging files maxAge := by
  by_cases h : maxAge ≤ 0
  · simp [applyAging, h]
  · exact applyAging_noop_of_le _ _
      (totalScore_applyAging_le files maxAge (not_le.mp h) hpos)

/-- Witness for C10: scores 2 and 3 under ceiling 4 — the first pass scales
(total 5 > 4), the second pass is the identity. -/
theorem applyAging_idempotent_witness :
    applyAging (applyAging [("a", ⟨2, 0⟩), ("b", ⟨3, 5⟩)] 4) 4
      = applyAging [("a", ⟨2, 0⟩), ("b", ⟨3, 5⟩)] 4 :=
  applyAging_idempotent [("a", ⟨2, 0⟩), ("b", ⟨3, 5⟩)] 4 (by decide)

/-- Claim C4: with `recordOnEveryVisit = false`, a visit to a key that is
already in the open-set is a tab switch — `recordVisit` leaves the whole
record set untouched; once the key is no longer in the open-set, a visit
counts again and bumps its score by 1 (the total-within-ceiling hypothesis
makes the subsequent aging call the identity, so the bumped score is also
the stored score). -/
theorem recordVisit_tab_switch (st : PluginState) (key : String) (now : ℤ)
    (hmode : st.settings.recordOnEveryVisit = false) :
    (key ∈ st.openInLeaf → (recordVisit st key now).files = st.files)
    ∧ (∀ e, key ∉ st.openInLeaf → lookupEntry st.files key = some e →
        totalScore st.files + 1 ≤ st.settings.maxAge →
        lookupEntry (recordVisit st key now).files key = some ⟨e.score + 1, now⟩) := by
  constructor
  · intro hopen
    simp [recordVisit, hmode, hopen]
  · intro e hnot hlook htot
    have hfiles : (recordVisit st key now).files
        = applyAging (visitUpdate st.files key now) st.settings.maxAge := by
      simp [recordVisit, hnot]
    have hvu : visitUpdate st.files key now
        = setEntry st.files key ⟨e.score + 1, now⟩ := by
      simp [visitUpdate, hlook]
    have htot' : totalScore (setEntry st.files key ⟨e.score + 1, now⟩)
        ≤ st.settings.maxAge := by
      rw [totalScore_setEntry_of_lookup st.files key e _ hlook]
      show totalScore st.files - e.score + (e.score + 1) ≤ st.settings.maxAge
      linarith
    rw [hfiles, hvu, applyAging_noop_of_le _ _ htot', lookupEntry_setEntry_self]

/-- Witness for C4: under the default settings (`recordOnEveryVisit = false`,
`maxAge = 9000`), revisiting an open key leaves the records alone, and
visiting it after it left the open-set bumps its score from 1 to 2. -/
theorem recordVisit_tab_switch_witness :
    (recordVisit ⟨[("k", ⟨1, 0⟩)], ["k"], DEFAULT_SETTINGS⟩ "k" 5).files
      = [("k", ⟨1, 0⟩)]
    ∧ lookupEntry (recordVisit ⟨[("k", ⟨1, 0⟩)], [], DEFAULT_SETTINGS⟩ "k" 5).files "k"
      = some ⟨1 + 1, 5⟩ := by
  have h1 := recordVisit_tab_switch ⟨[("k", ⟨1, 0⟩)], ["k"], DEFAULT_SETTINGS⟩ "k" 5 rfl
  have h2 := recordVisit_tab_switch ⟨[("k", ⟨1, 0⟩)], [], DEFAULT_SETTINGS⟩ "k" 5 rfl
  exact ⟨h1.1 (by simp), h2.2 ⟨1, 0⟩ (by simp) (by simp [lookupEntry])
    (by norm_num [totalScore, DEFAULT_SETTINGS])⟩

/-- Claim C6: when a visit counts (`recordOnEveryVisit` on, or the key not
in the open-set), `recordVisit` applies the counted-visit mutation — score
bumped by exactly 1 and `lastAccess` stamped to `now` for an existing
record, a fresh record with score 1 and `lastAccess = now` otherwise — and
the stored record set is `applyAging` of that pre-aging set under
`settings.maxAge`. -/
theorem recordVisit_counted (st : PluginState) (key : String) (now : ℤ)
    (h : st.settings.recordOnEveryVisit = true ∨ key ∉ st.openInLeaf) :
    (recordVisit st key now).files
        = applyAging (visitUpdate st.files key now) st.settings.maxAge
    ∧ lookupEntry (visitUpdate st.files key now) key
        = some ⟨(match lookupEntry st.files key with
                 | some e => e.score + 1
                 | none => 1), now⟩ := by
  have hc : ¬ (st.settings.recordOnEveryVisit = false ∧ key ∈ st.openInLeaf) := by
    rcases h with h | h
    · simp [h]
    · exact fun hc => h hc.2
  constructor
  · simp [recordVisit, hc]
  · cases hl : lookupEntry st.files key with
    | some e => simp [visitUpdate, hl, lookupEntry_setEntry_self]
    | none => simp [visitUpdate, hl, lookupEntry_setEntry_self]

/-- Witness for C6: a counted visit to a tracked score-3 key produces the
pre-aging score 4 with the new timestamp, and the stored set is the aged
pre-aging set. -/
theorem recordVisit_counted_witness :
    (recordVisit ⟨[("k", ⟨3, 0⟩)], [], DEFAULT_SETTINGS⟩ "k" 7).files
        = applyAging (visitUpdate [("k", ⟨3, 0⟩)] "k" 7) DEFAULT_SETTINGS.maxAge
    ∧ lookupEntry (visitUpdate [("k", ⟨3, 0⟩)] "k" 7) "k" = some ⟨4, 7⟩ := by
  have h := recordVisit_counted ⟨[("k", ⟨3, 0⟩)], [], DEFAULT_SETTINGS⟩ "k" 7
    (Or.inr (by simp))
  refine ⟨h.1, ?_⟩
  rw [h.2]
  norm_num [lookupEntry]

/-- Claim C9: `initData` never fails — a persisted blob whose `files` field
is not a plain object (absent, `null`, an array, or the whole blob missing)
yields the empty record set, while the settings are still assembled from the
defaults overlaid with whatever settings the blob carries. -/
theorem initData_malformed_recovers (raw : PersistedRaw)
    (h : ∀ entries, raw.files ≠ RawFiles.obj entries) :
    (initData (some raw)).2 = []
    ∧ (initData (some raw)).1 = assignSettings raw.settings
    ∧ (initData none).2 = [] ∧ (initData none).1 = DEFAULT_SETTINGS := by
  obtain ⟨rf, rs⟩ := raw
  refine ⟨?_, rfl, rfl, rfl⟩
  cases rf with
  | obj entries => exact absurd rfl (h entries)
  | undef => rfl
  | nullv => rfl
  | arrayv => rfl

/-- Witness for C9: a blob with `files: null` and no settings loads as the
empty record set with the default settings. -/
theorem initData_malformed_recovers_witness :
    (initData (some ⟨RawFiles.nullv, none⟩)).2 = []
    ∧ (initData (some ⟨RawFiles.nullv, none⟩)).1 = assignSettings none
    ∧ (initData none).2 = [] ∧ (initData none).1 = DEFAULT_SETTINGS :=
  initData_malformed_recovers ⟨RawFiles.nullv, none⟩ (fun _ h' => RawFiles.noConfusion h')

/-- Claim C5 counterexample (the code, not the claim, decides this):
renaming `a.md` (score 3, lastAccess 1700000000000) onto an existing
`b.md` (score 7, lastAccess 1650000000000) leaves `b.md` with the copied
`a.md` entry — score 3, not the merged score 10 the claim (and the
repository's own tests, tests/plugin.test.ts lines 106-124) demand; the
prior `b.md` history is lost. -/
theorem handleRename_overwrites_on_collision :
    lookupEntry (handleRename
        ⟨[("a.md", ⟨3, 1700000000000⟩), ("b.md", ⟨7, 1650000000000⟩)], [], DEFAULT_SETTINGS⟩
        "a.md" "b.md").files "b.md" = some ⟨3, 1700000000000⟩
    ∧ lookupEntry (handleRename
        ⟨[("a.md", ⟨3, 1700000000000⟩), ("b.md", ⟨7, 1650000000000⟩)], [], DEFAULT_SETTINGS⟩
        "a.md" "b.md").files "a.md" = none
    ∧ lookupEntry (handleRename
        ⟨[("a.md", ⟨3, 1700000000000⟩), ("b.md", ⟨7, 1650000000000⟩)], [], DEFAULT_SETTINGS⟩
        "a.md" "b.md").files "b.md" ≠ some ⟨10, 1700000000000⟩ := by
  decide

/-- Claim C8 counterexample (the code, not the claim, decides this):
`handleRename` never touches the open-set — renaming `a.md` to `b.md` while
`a.md` is open leaves `a.md` in the open-set and never adds `b.md`,
contradicting the claim (and the repository's own tests,
tests/plugin.test.ts lines 73-102). -/
theorem handleRename_ignores_open_set :
    "a.md" ∈ (handleRename ⟨[("a.md", ⟨1, 1⟩)], ["a.md"], DEFAULT_SETTINGS⟩
        "a.md" "b.md").openInLeaf
    ∧ "b.md" ∉ (handleRename ⟨[("a.md", ⟨1, 1⟩)], ["a.md"], DEFAULT_SETTINGS⟩
        "a.md" "b.md").openInLeaf := by
  decide
